import Mathlib

/-!
A shallow embedding of the map/reduce query-execution core found in
`influxql/engine.go`: the `MapReduceJob` data model, its `Open`, `Execute`,
`processRawResults` and `processAggregate` operations, the `Planner.Plan`
function and the `Executor.execute` emission loop.

Conventions of the embedding:

* Go `int64` values (timestamps, intervals) are `Int`; Go integer division
  (truncation toward zero) is `Int.tdiv`.
* Go `interface{}` values flowing through the engine (mapper outputs, reducer
  outputs, row values) are the inductive `Value`.  `Value.time ns` stands for
  the Go value `time.Unix(0, ns).UTC()` — the UTC wall-time of nanosecond `ns`.
* Go runtime panics that the engine itself can trigger (index out of range,
  failed type assertion, `make` with a negative length) are made explicit via
  `GoPanic`; a function that can panic returns `Except GoPanic _`.
* The channel `out` of `Execute` is modelled by the list of rows sent on it,
  in order.  Calls into the mapper interface are recorded as an `Event` trace
  so that statements about which mappers were touched can be made.
* External collaborators (the reducer registry, the mappers, the storage
  transaction, the statement accessors) are parameters: a `Mapper` is a
  deterministic oracle for its interface methods, an `Env` supplies the
  registry, and `PlanInputs` supplies the transaction-level calls made by
  `Plan`.  The engine under `src/` only ever consumes their results.
-/

namespace Engine

/-- Go errors are opaque; a string message suffices for the model. -/
abbrev Error := String

/-- The Go runtime panics reachable from the engine code itself. -/
inductive GoPanic where
  /-- indexing an empty slice, as in `resultValues[0]` on an empty slice -/
  | indexOutOfRange
  /-- a failed interface type assertion such as `.([]*rawQueryMapOutput)` -/
  | typeAssertion
  /-- `make([]T, n)` with negative `n` -/
  | negativeMake
deriving DecidableEq

/-- Go's truncated integer division (`/` on `int64`). -/
def goDiv (a b : Int) : Int := Int.tdiv a b

/-- An `interface{}` value as it flows through the engine: a wall-clock time
(`time.Unix(0, ns).UTC()`), a scalar, a string, `nil`, a field map
(`map[string]interface{}`), or a raw-query batch (`[]*rawQueryMapOutput`,
each record a `(timestamp, values)` pair). -/
inductive Value where
  | time (ns : Int)
  | int (n : Int)
  | str (s : String)
  | null
  | fieldMap (fields : List (String × Value))
  | rawBatch (recs : List (Int × Value))

/-- A reduce function: per-mapper outputs in, one value out
(`type ReduceFunc func([]interface{}) interface{}`). -/
abbrev ReduceFunc := List Value → Value

/-- An aggregate call descriptor; the engine only reads its `Name`. -/
structure Call where
  name : String
deriving DecidableEq

/-- The two accessors of `*SelectStatement` that the engine consumes:
`AggregateCalls()` and `NamesInSelect()`. -/
structure SelectStatement where
  aggregateCalls : List Call
  namesInSelect : List String
deriving DecidableEq

/-- `TagSet`: the tag key/value map and the serialized ordering key
(the `Filters`/`SeriesIDs` bookkeeping is not read by the claims). -/
structure TagSet where
  tags : List (String × String)
  key : List UInt8
deriving DecidableEq

/-- A `Mapper` modelled as a deterministic oracle for its interface:
`openErr` is the result of `Open()`; `beginErr c t` the result of
`Begin(c, t)`; `next c t k iv` the result of the `k`-th `NextInterval(iv)`
issued after `Begin(c, t)` (`none` for the `nil` call of a raw query). -/
structure Mapper where
  openErr : Option Error
  beginErr : Option Call → Int → Option Error
  next : Option Call → Int → Nat → Int → Except Error Value

/-- `MapReduceJob` as in the source: measurement, tag set, mappers, the query
time bounds, the group-by interval and the statement back-reference. -/
structure MapReduceJob where
  measurementName : String
  tagSet : TagSet
  mappers : List Mapper
  tmin : Int
  tmax : Int
  interval : Int
  stmt : SelectStatement

/-- `Row` with Go zero values as defaults. -/
structure Row where
  name : String := ""
  tags : List (String × String) := []
  columns : List String := []
  values : List (List Value) := []
  err : Option Error := none

/-- The calls the engine makes into the mapper interface, recorded with the
index of the mapper in `MapReduceJob.Mappers`. -/
inductive Event where
  | mopen (i : Nat)
  | mclose (i : Nat)
  | mbegin (i : Nat)
  | mnext (i : Nat)
deriving DecidableEq

/-- The reducer registry, an external collaborator: `initReduce` is
`InitializeReduceFunc` on a non-nil call; `rawReduce` is the raw reducer that
`InitializeReduceFunc(nil)` returns (per the registry contract it always
succeeds there; the engine discards the error with `r, _ := ...`). -/
structure Env where
  initReduce : Call → Except Error ReduceFunc
  rawReduce : ReduceFunc

/-- `bytes.Compare`: -1, 0 or 1 for bytewise lexicographic order. -/
def bytesCompare : List UInt8 → List UInt8 → Int
  | [], [] => 0
  | [], _ :: _ => -1
  | _ :: _, [] => 1
  | a :: as, b :: bs =>
    if a < b then -1 else if b < a then 1 else bytesCompare as bs

/-- `MapReduceJob.Key()`: the measurement name's bytes followed by the tag
set key (the source computes this once and caches it in `m.key`). -/
def MapReduceJob.jobKey (m : MapReduceJob) : List UInt8 :=
  m.measurementName.toUTF8.toList ++ m.tagSet.key

/-- `MapReduceJobs.Less(i, j)`: `bytes.Compare(a[i].Key(), a[j].Key()) == -1`. -/
def jobLess (a b : MapReduceJob) : Bool :=
  bytesCompare a.jobKey b.jobKey == -1

/-- `MapReduceJob.Close()`: close every mapper, in order. -/
def jobClose (m : MapReduceJob) : List Event :=
  (List.range m.mappers.length).map Event.mclose

/-- The `Open` loop of `MapReduceJob.Open()` over the remaining mappers
(`i0` = index of the first of them): on the first failing `Open()` the job
calls `m.Close()` — which closes every mapper of the job — and returns the
error. -/
def openLoop (m : MapReduceJob) : List Mapper → Nat → Option Error × List Event
  | [], _ => (none, [])
  | mm :: rest, i0 =>
    match mm.openErr with
    | some e => (some e, Event.mopen i0 :: jobClose m)
    | none =>
      let r := openLoop m rest (i0 + 1)
      (r.1, Event.mopen i0 :: r.2)

/-- `MapReduceJob.Open()`. -/
def jobOpen (m : MapReduceJob) : Option Error × List Event :=
  openLoop m m.mappers 0

/-- The reducer-initialization loop at the top of `Execute`: initialize a
`ReduceFunc` per aggregate call, stopping at the first failure. -/
def initReducers (env : Env) : List Call → Except Error (List ReduceFunc)
  | [] => .ok []
  | c :: rest =>
    match env.initReduce c with
    | .error e => .error e
    | .ok f =>
      match initReducers env rest with
      | .error e => .error e
      | .ok fs => .ok (f :: fs)

/-- The `Begin` loop of `processAggregate`: call `Begin(c, tmin)` on each
mapper in order, returning at the first error. -/
def beginAll : List Mapper → Option Call → Int → Nat → Option Error × List Event
  | [], _, _, _ => (none, [])
  | mm :: rest, c, t, i0 =>
    match mm.beginErr c t with
    | some e => (some e, [Event.mbegin i0])
    | none =>
      let r := beginAll rest c t (i0 + 1)
      (r.1, Event.mbegin i0 :: r.2)

/-- One bucket of `processAggregate`'s inner loop: collect
`NextInterval(interval)` from every mapper in order (the `k`-th such round
since `Begin`), returning at the first error. -/
def nextAll : List Mapper → Option Call → Int → Nat → Int → Nat →
    Except Error (List Value) × List Event
  | [], _, _, _, _, _ => (.ok [], [])
  | mm :: rest, c, t, k, iv, i0 =>
    match mm.next c t k iv with
    | .error e => (.error e, [Event.mnext i0])
    | .ok v =>
      match nextAll rest c t k iv (i0 + 1) with
      | (.error e, evs) => (.error e, Event.mnext i0 :: evs)
      | (.ok vs, evs) => (.ok (v :: vs), Event.mnext i0 :: evs)

/-- The per-bucket loop of `processAggregate`: for bucket `k` (and each
following one), collect every mapper's output and append
`reduceFunc(mapperOutputs)` to that bucket's value row. -/
def bucketLoop (m : MapReduceJob) (c : Option Call) (rf : ReduceFunc) (iv : Int) :
    List (List Value) → Nat → Except Error (List (List Value)) × List Event
  | [], _ => (.ok [], [])
  | v :: rest, k =>
    match nextAll m.mappers c m.tmin k iv 0 with
    | (.error e, evs) => (.error e, evs)
    | (.ok outs, evs) =>
      match bucketLoop m c rf iv rest (k + 1) with
      | (.error e, evs2) => (.error e, evs ++ evs2)
      | (.ok rest2, evs2) => (.ok ((v ++ [rf outs]) :: rest2), evs ++ evs2)

/-- `MapReduceJob.processAggregate`: `Begin` each mapper at `TMin`, then run
the bucket loop over the current `resultValues` with the (effective)
interval `iv`. -/
def processAggregate (m : MapReduceJob) (c : Option Call) (rf : ReduceFunc)
    (vals : List (List Value)) (iv : Int) :
    Except Error (List (List Value)) × List Event :=
  match beginAll m.mappers c m.tmin 0 with
  | (some e, evs) => (.error e, evs)
  | (none, evs) =>
    let r := bucketLoop m c rf iv vals 0
    (r.1, evs ++ r.2)

/-- The aggregates loop of `Execute`: run `processAggregate` for each
`(call, reduceFunc)` pair in statement order, threading `resultValues`. -/
def aggLoop (m : MapReduceJob) (iv : Int) :
    List (Option Call × ReduceFunc) → List (List Value) →
    Except Error (List (List Value)) × List Event
  | [], vals => (.ok vals, [])
  | (c, rf) :: rest, vals =>
    match processAggregate m c rf vals iv with
    | (.error e, evs) => (.error e, evs)
    | (.ok vals2, evs) =>
      match aggLoop m iv rest vals2 with
      | (r, evs2) => (r, evs ++ evs2)

/-- One value row of the raw path: `[utc(ts), payload]` when a single value is
selected — via the assertion `v.values.(interface{})`, which panics when the
payload is the nil interface — otherwise the payload must be a field map and
values are filled by column name (`time` columns get the timestamp; missing
fields are `nil`). -/
def rawRecordRow (selectNames : List String) (singleValue : Bool)
    (ts : Int) (payload : Value) : Except GoPanic (List Value) :=
  if singleValue then
    match payload with
    | Value.null => .error .typeAssertion
    | _ => .ok [Value.time ts, payload]
  else
    match payload with
    | Value.fieldMap fields =>
      .ok (selectNames.map fun n =>
        if n = "time" then Value.time ts
        else ((fields.lookup n).getD Value.null))
    | _ => .error .typeAssertion

/-- The record loop of `processRawResults`, appending one value row per raw
record in mapper-emission order. -/
def rawRows (selectNames : List String) (singleValue : Bool) :
    List (Int × Value) → Except GoPanic (List (List Value))
  | [] => .ok []
  | (ts, payload) :: rest =>
    match rawRecordRow selectNames singleValue ts payload with
    | .error p => .error p
    | .ok vals =>
      match rawRows selectNames singleValue rest with
      | .error p => .error p
      | .ok vs => .ok (vals :: vs)

/-- `MapReduceJob.processRawResults`.  Note the source's empty-input guard is
followed by a debug log whose argument evaluates `resultValues[0]`, so the
empty case panics with an index-out-of-range instead of returning the empty
row; and entry 1 of the first bucket is type-asserted to
`[]*rawQueryMapOutput`. -/
def processRawResults (m : MapReduceJob) (resultValues : List (List Value)) :
    Except GoPanic Row :=
  let selectNames0 := m.stmt.namesInSelect
  let selectNames :=
    if selectNames0.contains "time" then selectNames0 else "time" :: selectNames0
  let singleValue := selectNames.length == 2
  let row : Row :=
    { name := m.measurementName, tags := m.tagSet.tags, columns := selectNames }
  match resultValues with
  | [] => .error .indexOutOfRange
  | first :: _ =>
    if first.length ≠ 2 then .ok row
    else
      match first[1]? with
      | some (Value.rawBatch recs) =>
        match rawRows selectNames singleValue recs with
        | .error p => .error p
        | .ok vs => .ok { row with values := vs }
      | _ => .error .typeAssertion

/-- The single-bucket test of `Execute`: no start time, no group-by interval,
or a raw query. -/
def singleBucket (m : MapReduceJob) : Prop :=
  m.tmin = 0 ∨ m.interval = 0 ∨ m.stmt.aggregateCalls = []

instance (m : MapReduceJob) : Decidable (singleBucket m) := by
  unfold singleBucket; infer_instance

/-- The effective interval of the job: `Execute` overwrites `m.interval` with
`TMax - TMin` in the single-bucket case. -/
def effectiveInterval (m : MapReduceJob) : Int :=
  if singleBucket m then m.tmax - m.tmin else m.interval

/-- `pointCountInResult`: one bucket in the single-bucket case, otherwise
snap the upper edge up to the next interval multiple and divide. -/
def pointCount (m : MapReduceJob) : Int :=
  if singleBucket m then 1
  else goDiv (goDiv m.tmax m.interval * m.interval + m.interval - m.tmin) m.interval

/-- The initial `resultValues`: one bucket per point, seeded with the UTC
wall time of `tmin + i*interval`. -/
def initialValues (m : MapReduceJob) : List (List Value) :=
  (List.range (pointCount m).toNat).map fun (i : Nat) =>
    [Value.time (m.tmin + (i : Int) * effectiveInterval m)]

/-- What one call of `Execute(out)` did: the rows sent on `out` in order,
whether it panicked instead of returning, and the mapper calls it made. -/
structure ExecOut where
  rows : List Row
  panicked : Option GoPanic
  events : List Event
deriving Inhabited

/-- The `(call, reduceFunc)` pairs the aggregates loop runs over: the
statement's calls zipped with their reducers, or the single
`(nil, raw reducer)` pair of a raw query. -/
def aggPairs (env : Env) (m : MapReduceJob) (rfs : List ReduceFunc) :
    List (Option Call × ReduceFunc) :=
  if m.stmt.aggregateCalls = [] then [(none, env.rawReduce)]
  else (m.stmt.aggregateCalls.map some).zip rfs

/-- `MapReduceJob.Execute(out)`. -/
def jobExecute (env : Env) (m : MapReduceJob) : ExecOut :=
  match initReducers env m.stmt.aggregateCalls with
  | .error e => { rows := [{ err := some e }], panicked := none, events := [] }
  | .ok rfs =>
    if pointCount m < 0 then
      { rows := [], panicked := some .negativeMake, events := [] }
    else
      match aggLoop m (effectiveInterval m) (aggPairs env m rfs) (initialValues m) with
      | (.error e, evs) =>
        { rows := [{ name := m.measurementName, tags := m.tagSet.tags, err := some e }],
          panicked := none, events := evs }
      | (.ok vals, evs) =>
        if m.stmt.aggregateCalls = [] then
          match processRawResults m vals with
          | .error p => { rows := [], panicked := some p, events := evs }
          | .ok r => { rows := [r], panicked := none, events := evs }
        else
          { rows := [{ name := m.measurementName, tags := m.tagSet.tags,
                       columns := "time" :: m.stmt.aggregateCalls.map Call.name,
                       values := vals }],
            panicked := none, events := evs }

/-- `Executor` as built by `Plan`: the job list, the group-by interval and
the statement (the transaction handle holds no data the model reads). -/
structure Executor where
  jobs : List MapReduceJob
  interval : Int
  stmt : SelectStatement

/-- The emission loop of `Executor.execute(out)`: run each job serially,
concatenating what it sends on `out`; after the last job, `close(out)`
(the `Bool` is whether the close was reached — a panicking job kills the
goroutine first, leaving the channel open and later jobs unrun). -/
def emissionLoop (env : Env) : List MapReduceJob → List Row × Bool × Option GoPanic
  | [] => ([], true, none)
  | j :: rest =>
    let o := jobExecute env j
    match o.panicked with
    | some p => (o.rows, false, some p)
    | none =>
      let r := emissionLoop env rest
      (o.rows ++ r.1, r.2.1, r.2.2)

/-- `Executor.execute(out)` over the executor's job list. -/
def Executor.run (env : Env) (e : Executor) : List Row × Bool × Option GoPanic :=
  emissionLoop env e.jobs

/-- The external calls `Plan` makes, in source order: `DB.Begin()`,
`stmt.Dimensions.Normalize()` (yielding the interval in nanoseconds and the
group-by tag keys), and `tx.CreateMapReduceJobs(stmt, tagKeys)`.  The
`now()`-substitution into the statement's condition touches only fields the
engine never reads back and is not modelled. -/
structure PlanInputs where
  beginTx : Except Error Unit
  normalize : Except Error (Int × List String)
  createJobs : List String → Except Error (List MapReduceJob)

/-- `Planner.Plan(stmt)`: open the transaction, normalize the dimensions,
create one job per tag set, then imprint each job with the interval and the
statement — in the order the transaction returned them. -/
def plan (stmt : SelectStatement) (pin : PlanInputs) : Except Error Executor :=
  match pin.beginTx with
  | .error e => .error e
  | .ok _ =>
    match pin.normalize with
    | .error e => .error e
    | .ok (interval, tags) =>
      match pin.createJobs tags with
      | .error e => .error e
      | .ok jobs =>
        .ok { jobs := jobs.map fun j => { j with interval := interval, stmt := stmt },
              interval := interval, stmt := stmt }

/-- `jobOpen`'s result as a function of the first failing `Open()`:
relative index and error of the first mapper whose `Open()` fails. -/
def firstOpenFailure : List Mapper → Option (Nat × Error)
  | [] => none
  | mm :: rest =>
    match mm.openErr with
    | some e => some (0, e)
    | none => (firstOpenFailure rest).map fun p => (p.1 + 1, p.2)

/-! ### Concrete fixtures used by witnesses and counterexamples -/

/-- A mapper whose operations all succeed, each interval yielding the
scalar 0. -/
def okMapper : Mapper :=
  { openErr := none, beginErr := fun _ _ => none,
    next := fun _ _ _ _ => .ok (Value.int 0) }

/-- A mapper whose `Open()` fails. -/
def badOpenMapper : Mapper :=
  { okMapper with openErr := some "openfail" }

/-- A mapper whose `NextInterval` fails. -/
def badNextMapper : Mapper :=
  { okMapper with next := fun _ _ _ _ => .error "nexterr" }

/-- A registry that accepts every call except one named `bad`, returning a
reducer that always yields the scalar 0; its raw reducer returns an empty
raw batch. -/
def testEnv : Env :=
  { initReduce := fun c =>
      if c.name = "bad" then .error "boom" else .ok fun _ => Value.int 0,
    rawReduce := fun _ => Value.rawBatch [] }

/-- `SELECT sum(v)`-shaped statement. -/
def testStmt : SelectStatement :=
  { aggregateCalls := [{ name := "sum" }], namesInSelect := ["v"] }

/-- A job over `[10, 29]` with a 10ns group-by interval. -/
def testJob : MapReduceJob :=
  { measurementName := "cpu", tagSet := { tags := [("host", "a")], key := [97] },
    mappers := [okMapper], tmin := 10, tmax := 29, interval := 10, stmt := testStmt }

/-- A statement whose single aggregate the registry rejects. -/
def badStmt : SelectStatement :=
  { aggregateCalls := [{ name := "bad" }], namesInSelect := ["v"] }

/-- `testJob` with the rejected aggregate. -/
def badJob : MapReduceJob :=
  { testJob with stmt := badStmt }

/-- A raw (no-aggregates) statement selecting the single field `v`. -/
def rawStmt : SelectStatement :=
  { aggregateCalls := [], namesInSelect := ["v"] }

/-- A raw job over `[1, 5]`. -/
def rawJob : MapReduceJob :=
  { measurementName := "cpu", tagSet := { tags := [], key := [] },
    mappers := [okMapper], tmin := 1, tmax := 5, interval := 0, stmt := rawStmt }

/-- A registry whose raw reducer violates the raw-query contract by
returning a scalar instead of a `[]*rawQueryMapOutput` batch. -/
def scalarRawEnv : Env :=
  { initReduce := fun _ => .error "unused", rawReduce := fun _ => Value.int 0 }

/-- The planner inputs for the ordering counterexample: the transaction
returns the jobs out of tag-set-key order. -/
def jobKeyA : MapReduceJob :=
  { measurementName := "cpu", tagSet := { tags := [("t", "a")], key := [97] },
    mappers := [okMapper], tmin := 10, tmax := 29, interval := 10, stmt := testStmt }

/-- Same measurement, tag-set key `[98]` (`"b"`), emitted first. -/
def jobKeyB : MapReduceJob :=
  { measurementName := "cpu", tagSet := { tags := [("t", "b")], key := [98] },
    mappers := [okMapper], tmin := 10, tmax := 29, interval := 10, stmt := testStmt }

/-- Plan inputs that succeed and hand back `[jobKeyB, jobKeyA]`. -/
def unsortedPlanInputs : PlanInputs :=
  { beginTx := .ok (), normalize := .ok (10, ["t"]),
    createJobs := fun _ => .ok [jobKeyB, jobKeyA] }

/-- The executor `plan` builds from `unsortedPlanInputs`. -/
def unsortedExecutor : Executor :=
  { jobs := [{ jobKeyB with interval := 10, stmt := testStmt },
             { jobKeyA with interval := 10, stmt := testStmt }],
    interval := 10, stmt := testStmt }

/-- The row a successful run of `testJob` emits. -/
def testRow : Row :=
  { name := "cpu", tags := [("host", "a")], columns := ["time", "sum"],
    values := [[Value.time 10, Value.int 0], [Value.time 20, Value.int 0]] }

/-- Plan inputs that succeed and hand back the single `testJob`. -/
def singlePlanInputs : PlanInputs :=
  { beginTx := .ok (), normalize := .ok (10, ["host"]),
    createJobs := fun _ => .ok [testJob] }

/-- The executor `plan` builds from `singlePlanInputs`. -/
def singleExecutor : Executor :=
  { jobs := [{ testJob with interval := 10, stmt := testStmt }],
    interval := 10, stmt := testStmt }

end Engine

/-! ### Helper lemmas about the execution loops -/

namespace Engine

/-- A successful reducer-initialization loop yields one reducer per call. -/
lemma initReducers_ok_length (env : Env) (cs : List Call) (rfs : List ReduceFunc)
    (h : initReducers env cs = .ok rfs) : rfs.length = cs.length := by
  induction cs generalizing rfs with
  | nil =>
    simp only [initReducers] at h
    cases h
    rfl
  | cons c rest ih =>
    simp only [initReducers] at h
    cases hc : env.initReduce c with
    | error e => rw [hc] at h; cases h
    | ok f =>
      rw [hc] at h
      cases hrest : initReducers env rest with
      | error e => rw [hrest] at h; cases h
      | ok fs =>
        rw [hrest] at h
        cases h
        simp [ih fs hrest]

/-- A successful bucket loop appends exactly one value to each bucket row. -/
lemma bucketLoop_ok_forall2 (m : MapReduceJob) (c : Option Call) (rf : ReduceFunc)
    (iv : Int) (vals vals' : List (List Value)) (k : Nat) (evs : List Event)
    (h : bucketLoop m c rf iv vals k = (.ok vals', evs)) :
    List.Forall₂ (fun v v' => ∃ x, v' = v ++ [x]) vals vals' := by
  induction vals generalizing vals' k evs with
  | nil =>
    simp only [bucketLoop] at h
    cases h
    exact List.Forall₂.nil
  | cons v rest ih =>
    simp only [bucketLoop] at h
    rcases hn : nextAll m.mappers c m.tmin k iv 0 with ⟨res, evs1⟩
    rw [hn] at h
    cases res with
    | error e => cases h
    | ok outs =>
      rcases hb : bucketLoop m c rf iv rest (k + 1) with ⟨res2, evs2⟩
      rw [hb] at h
      cases res2 with
      | error e => cases h
      | ok rest2 =>
        cases h
        exact List.Forall₂.cons ⟨rf outs, rfl⟩ (ih rest2 (k + 1) evs2 hb)

/-- Composition of the per-pass extensions: extending by one element and then
by `n` more extends by `n + 1` in total. -/
lemma forall2_ext_comp {l1 l2 l3 : List (List Value)} {n : Nat}
    (h12 : List.Forall₂ (fun v v' => ∃ x, v' = v ++ [x]) l1 l2)
    (h23 : List.Forall₂ (fun v v' => ∃ ext, v' = v ++ ext ∧ ext.length = n) l2 l3) :
    List.Forall₂ (fun v v' => ∃ ext, v' = v ++ ext ∧ ext.length = n + 1) l1 l3 := by
  induction h12 generalizing l3 with
  | nil =>
    cases h23
    exact List.Forall₂.nil
  | cons hab hrest ih =>
    cases h23 with
    | cons hbc hrest23 =>
      refine List.Forall₂.cons ?_ (ih hrest23)
      obtain ⟨x, hx⟩ := hab
      obtain ⟨ext, hext, hlen⟩ := hbc
      exact ⟨x :: ext, by simp [hx, hext], by simp [hlen, Nat.add_comm]⟩

/-- reflexive base case: extending by zero elements. -/
lemma forall2_ext_refl (l : List (List Value)) :
    List.Forall₂ (fun v v' => ∃ ext : List Value, v' = v ++ ext ∧ ext.length = 0) l l := by
  induction l with
  | nil => exact List.Forall₂.nil
  | cons v rest ih => exact List.Forall₂.cons ⟨[], by simp⟩ ih

/-- A successful aggregates loop appends exactly one value per
`(call, reducer)` pair to each bucket row. -/
lemma aggLoop_ok_forall2 (m : MapReduceJob) (iv : Int)
    (pairs : List (Option Call × ReduceFunc)) (vals vals' : List (List Value))
    (evs : List Event)
    (h : aggLoop m iv pairs vals = (.ok vals', evs)) :
    List.Forall₂ (fun v v' => ∃ ext, v' = v ++ ext ∧ ext.length = pairs.length)
      vals vals' := by
  induction pairs generalizing vals evs with
  | nil =>
    simp only [aggLoop] at h
    cases h
    exact forall2_ext_refl vals'
  | cons p rest ih =>
    rcases p with ⟨c, rf⟩
    simp only [aggLoop] at h
    rcases hpa : processAggregate m c rf vals iv with ⟨res, evs1⟩
    rw [hpa] at h
    cases res with
    | error e => cases h
    | ok vals2 =>
      dsimp only at h
      rcases ha : aggLoop m iv rest vals2 with ⟨res2, evs2⟩
      rw [ha] at h
      dsimp only at h
      cases res2 with
      | error e => cases h
      | ok vals3 =>
        cases h
        have h1 : List.Forall₂ (fun v v' => ∃ x, v' = v ++ [x]) vals vals2 := by
          simp only [processAggregate] at hpa
          rcases hbg : beginAll m.mappers c m.tmin 0 with ⟨bres, evsb⟩
          rw [hbg] at hpa
          cases bres with
          | some e => simp at hpa
          | none =>
            simp only at hpa
            rcases hbl : bucketLoop m c rf iv vals 0 with ⟨blres, evsbl⟩
            rw [hbl] at hpa
            cases blres with
            | error e => simp at hpa
            | ok blvals =>
              simp at hpa
              obtain ⟨h1, _⟩ := hpa
              subst h1
              exact bucketLoop_ok_forall2 m c rf iv vals blvals 0 evsbl hbl
        have h2 := ih vals2 evs2 ha
        simpa [Nat.add_comm] using forall2_ext_comp h1 h2

/-- A second (membership) view of the append relation. -/
lemma forall2_mem_right {R : List Value → List Value → Prop}
    {l1 l2 : List (List Value)} (h : List.Forall₂ R l1 l2) :
    ∀ b ∈ l2, ∃ a ∈ l1, R a b := by
  induction h with
  | nil => intro b hb; cases hb
  | cons hab hrest ih =>
    intro b hb
    rcases List.mem_cons.mp hb with hb | hb
    · exact ⟨_, List.mem_cons_self _ _, hb ▸ hab⟩
    · obtain ⟨a, ha, hr⟩ := ih b hb
      exact ⟨a, List.mem_cons_of_mem _ ha, hr⟩

end Engine

namespace Engine

/-- Dissection of a successful non-raw `Execute`: a row with `Err = nil` can
only come from the final send, so the reducers initialized, the aggregates
loop succeeded, the bucket count was non-negative, and the row is the
assembled one. -/
lemma nonRaw_success_shape (env : Env) (m : MapReduceJob) (r : Row)
    (hnr : m.stmt.aggregateCalls ≠ [])
    (hr : (jobExecute env m).rows = [r]) (he : r.err = none) :
    ∃ rfs vals evs,
      initReducers env m.stmt.aggregateCalls = .ok rfs ∧
      aggLoop m (effectiveInterval m) (aggPairs env m rfs) (initialValues m) =
        (.ok vals, evs) ∧
      ¬ pointCount m < 0 ∧
      r = { name := m.measurementName, tags := m.tagSet.tags,
            columns := "time" :: m.stmt.aggregateCalls.map Call.name,
            values := vals } := by
  unfold jobExecute at hr
  cases hini : initReducers env m.stmt.aggregateCalls with
  | error e =>
    rw [hini] at hr
    simp only [ExecOut.rows] at hr
    cases hr
    simp at he
  | ok rfs =>
    rw [hini] at hr
    dsimp only at hr
    by_cases hpc : pointCount m < 0
    · rw [if_pos hpc] at hr
      simp at hr
    · rw [if_neg hpc] at hr
      rcases hagg : aggLoop m (effectiveInterval m) (aggPairs env m rfs) (initialValues m)
        with ⟨res, evs⟩
      rw [hagg] at hr
      cases res with
      | error e =>
        simp only [ExecOut.rows] at hr
        cases hr
        simp at he
      | ok vals =>
        dsimp only at hr
        rw [if_neg hnr] at hr
        simp only [ExecOut.rows] at hr
        cases hr
        exact ⟨rfs, vals, evs, rfl, hagg, hpc, rfl⟩

/-- `openLoop` characterized by the first failing `Open()`. -/
lemma openLoop_spec (m : MapReduceJob) (ms : List Mapper) (i0 : Nat) :
    openLoop m ms i0 =
      match firstOpenFailure ms with
      | none => (none, (List.range' i0 ms.length).map Event.mopen)
      | some (k, e) =>
        (some e, (List.range' i0 (k + 1)).map Event.mopen ++ jobClose m) := by
  induction ms generalizing i0 with
  | nil => rfl
  | cons mm rest ih =>
    cases ho : mm.openErr with
    | some e =>
      simp only [openLoop, firstOpenFailure, ho]
      rfl
    | none =>
      simp only [openLoop, firstOpenFailure, ho, ih (i0 + 1)]
      cases hf : firstOpenFailure rest with
      | none =>
        simp [List.range'_succ]
      | some p =>
        rcases p with ⟨k, e⟩
        simp [List.range'_succ]

/-- When no job panics, the emission loop sends every job's rows in job-list
order and then closes the channel. -/
lemma emissionLoop_no_panic (env : Env) (jobs : List MapReduceJob)
    (h : ∀ j ∈ jobs, (jobExecute env j).panicked = none) :
    emissionLoop env jobs =
      ((jobs.flatMap fun j => (jobExecute env j).rows), true, none) := by
  induction jobs with
  | nil => rfl
  | cons j rest ih =>
    have hj : (jobExecute env j).panicked = none := h j (by simp)
    have hrest := ih fun x hx => h x (by simp [hx])
    simp [emissionLoop, hj, hrest]

end Engine

namespace Engine

/-- In single-value mode every raw record with a non-nil payload turns into
`[utc(ts), payload]` (a nil payload trips the interface assertion instead). -/
lemma rawRows_single (sn : List String) (recs : List (Int × Value))
    (h : ∀ rec ∈ recs, rec.2 ≠ Value.null) :
    rawRows sn true recs = .ok (recs.map fun rec => [Value.time rec.1, rec.2]) := by
  induction recs with
  | nil => rfl
  | cons a rest ih =>
    rcases a with ⟨ts, p⟩
    have hp : p ≠ Value.null := h (ts, p) (by simp)
    have hrest := ih fun rec hrec => h rec (by simp [hrec])
    cases p with
    | null => exact absurd rfl hp
    | time ns => simp [rawRows, rawRecordRow, hrest]
    | int n => simp [rawRows, rawRecordRow, hrest]
    | str s => simp [rawRows, rawRecordRow, hrest]
    | fieldMap fields => simp [rawRows, rawRecordRow, hrest]
    | rawBatch recs2 => simp [rawRows, rawRecordRow, hrest]

/-! ### Claims -/

/-- C10: if `Open()` of the `k`-th mapper fails during `Job.Open`, the job
opens mappers `0..k`, then calls `Close()` on every one of its mappers
(those never opened included) and returns that mapper's error; if every
mapper opens, it returns nil and closes none. -/
theorem C10_open_closes_all (m : MapReduceJob) :
    jobOpen m =
      match firstOpenFailure m.mappers with
      | none => (none, (List.range m.mappers.length).map Event.mopen)
      | some (k, e) =>
        (some e, (List.range (k + 1)).map Event.mopen ++
          (List.range m.mappers.length).map Event.mclose) := by
  have h := openLoop_spec m m.mappers 0
  rw [jobOpen, h]
  cases hf : firstOpenFailure m.mappers with
  | none => simp [List.range_eq_range']
  | some p =>
    rcases p with ⟨k, e⟩
    simp [List.range_eq_range', jobClose]

/-- C7 (amended): `Execute` sends at most one row on `out`: exactly one
whenever it returns normally, and none when it panics (reachable only
through the raw path's type assertions or a negative bucket-count
allocation). -/
theorem C7_amended_one_row (env : Env) (m : MapReduceJob) :
    (jobExecute env m).rows.length =
      if (jobExecute env m).panicked.isSome then 0 else 1 := by
  unfold jobExecute
  cases initReducers env m.stmt.aggregateCalls with
  | error e => rfl
  | ok rfs =>
    dsimp only
    by_cases hpc : pointCount m < 0
    · simp [hpc]
    · rw [if_neg hpc]
      rcases h : aggLoop m (effectiveInterval m) (aggPairs env m rfs) (initialValues m)
        with ⟨res, evs⟩
      cases res with
      | error e => rfl
      | ok vals =>
        dsimp only
        by_cases hraw : m.stmt.aggregateCalls = []
        · rw [if_pos hraw]
          cases processRawResults m vals with
          | error p => rfl
          | ok r => rfl
        · rw [if_neg hraw]
          rfl

/-- C7 (counterexample): with a raw reducer that returns a scalar instead of
a raw batch, the raw path's type assertion panics and `Execute` sends zero
rows, refuting "never zero" over every reducer behaviour. -/
theorem C7_cex_zero_rows :
    (jobExecute scalarRawEnv rawJob).rows = [] ∧
    (jobExecute scalarRawEnv rawJob).panicked = some GoPanic.typeAssertion :=
  ⟨rfl, rfl⟩

/-- C2 (amended): when a reducer fails to initialize, `Execute` emits exactly
one row carrying only the error — `Name` and `Tags` are left at their zero
values, not populated from the job — and returns without touching any
mapper. -/
theorem C2_amended_bare_error_row (env : Env) (m : MapReduceJob) (e : Error)
    (h : initReducers env m.stmt.aggregateCalls = .error e) :
    jobExecute env m =
      { rows := [{ name := "", tags := [], columns := [], values := [],
                   err := some e }],
        panicked := none, events := [] } := by
  unfold jobExecute
  rw [h]

/-- C2 (witness): the amended statement at a concrete failing registry. -/
theorem C2_amended_bare_error_row_witness :
    jobExecute testEnv badJob =
      { rows := [{ name := "", tags := [], columns := [], values := [],
                   err := some "boom" }],
        panicked := none, events := [] } :=
  C2_amended_bare_error_row testEnv badJob "boom" rfl

/-- C2 (counterexample): on reducer-initialization failure the emitted row's
`Name` and `Tags` are empty even though the failing job has a measurement
name and tags, so they are not populated from the job. -/
theorem C2_cex_name_tags_empty :
    (jobExecute testEnv badJob).rows.map Row.name = [""] ∧
    (jobExecute testEnv badJob).rows.map Row.tags = [[]] ∧
    badJob.measurementName = "cpu" ∧
    badJob.tagSet.tags = [("host", "a")] ∧
    ("" : String) ≠ "cpu" ∧
    ([] : List (String × String)) ≠ [("host", "a")] :=
  ⟨rfl, rfl, rfl, rfl, by decide, by decide⟩

/-- C4: called with an empty `resultValues`, `processRawResults` does not
return the empty row its guard intends: the debug log's argument
`len(resultValues[0])` indexes the empty slice and panics; a malformed
first bucket (length ≠ 2), by contrast, does return the bare row. -/
theorem C4_empty_input_panics :
    processRawResults rawJob [] = .error GoPanic.indexOutOfRange ∧
    processRawResults rawJob [[Value.null]] =
      .ok { name := "cpu", tags := [], columns := ["time", "v"] } :=
  ⟨rfl, rfl⟩

end Engine

namespace Engine

/-- C1: a non-raw job with `interval > 0` and `TMin > 0` whose `Execute`
emits a success row produces exactly
`((TMax/I)*I + I - TMin)/I` value rows (truncated integer division). -/
theorem C1_bucket_count (env : Env) (m : MapReduceJob) (r : Row)
    (hI : 0 < m.interval) (hT : 0 < m.tmin)
    (hnr : m.stmt.aggregateCalls ≠ [])
    (hr : (jobExecute env m).rows = [r]) (he : r.err = none) :
    (r.values.length : Int) =
      goDiv (goDiv m.tmax m.interval * m.interval + m.interval - m.tmin)
        m.interval := by
  obtain ⟨rfs, vals, evs, hini, hagg, hpc, hrow⟩ :=
    nonRaw_success_shape env m r hnr hr he
  have hf2 := aggLoop_ok_forall2 _ _ _ _ _ _ hagg
  have hlen : vals.length = (initialValues m).length := hf2.length_eq.symm
  have hsb : ¬ singleBucket m := by
    unfold singleBucket
    push_neg
    exact ⟨by omega, by omega, hnr⟩
  have hpcval : pointCount m =
      goDiv (goDiv m.tmax m.interval * m.interval + m.interval - m.tmin)
        m.interval := by
    unfold pointCount
    rw [if_neg hsb]
  have hiv : (initialValues m).length = (pointCount m).toNat := by
    unfold initialValues
    rw [List.length_map, List.length_range]
  have hval : r.values = vals := by rw [hrow]
  rw [hval, hlen, hiv, Int.toNat_of_nonneg (by omega), hpcval]

/-- C1 (witness): the bucket-count theorem at `TMin = 10`, `TMax = 29`,
`I = 10`, yielding two buckets. -/
theorem C1_bucket_count_witness :
    ((testRow.values.length : Int)) = goDiv (goDiv 29 10 * 10 + 10 - 10) 10 :=
  C1_bucket_count testEnv testJob testRow (by decide) (by decide) (by decide)
    rfl rfl

end Engine

namespace Engine

/-- C5: a non-raw job whose `Execute` emits a success row gets columns
`["time", call_1.Name, …]` — so `len(Columns) = 1 + len(AggregateCalls)` and
`Columns[0] = "time"` — and every value row has exactly `len(Columns)`
entries. -/
theorem C5_column_shape (env : Env) (m : MapReduceJob) (r : Row)
    (hnr : m.stmt.aggregateCalls ≠ [])
    (hr : (jobExecute env m).rows = [r]) (he : r.err = none) :
    r.columns = "time" :: m.stmt.aggregateCalls.map Call.name ∧
    r.columns.length = 1 + m.stmt.aggregateCalls.length ∧
    ∀ v ∈ r.values, v.length = r.columns.length := by
  obtain ⟨rfs, vals, evs, hini, hagg, hpc, hrow⟩ :=
    nonRaw_success_shape env m r hnr hr he
  have hrfslen := initReducers_ok_length env _ rfs hini
  have hpairs : (aggPairs env m rfs).length = m.stmt.aggregateCalls.length := by
    unfold aggPairs
    rw [if_neg hnr]
    simp [hrfslen]
  have hf2 := aggLoop_ok_forall2 _ _ _ _ _ _ hagg
  have hcols : r.columns = "time" :: m.stmt.aggregateCalls.map Call.name := by
    rw [hrow]
  refine ⟨hcols, by rw [hcols]; simp [Nat.add_comm], ?_⟩
  intro v hv
  have hval : r.values = vals := by rw [hrow]
  rw [hval] at hv
  obtain ⟨a, ha, ext, hext, hlenext⟩ := forall2_mem_right hf2 v hv
  unfold initialValues at ha
  obtain ⟨i, hi, hai⟩ := List.mem_map.mp ha
  have ha1 : a.length = 1 := by rw [← hai]; rfl
  rw [hext, List.length_append, ha1, hlenext, hpairs, hcols]
  simp [Nat.add_comm]

/-- C5 (witness): the column-shape theorem at the two-bucket `sum` job. -/
theorem C5_column_shape_witness :
    testRow.columns = "time" :: testJob.stmt.aggregateCalls.map Call.name ∧
    testRow.columns.length = 1 + testJob.stmt.aggregateCalls.length ∧
    ∀ v ∈ testRow.values, v.length = testRow.columns.length :=
  C5_column_shape testEnv testJob testRow (by decide) rfl rfl

/-- C6: in a success row of a non-raw job, value row `i` starts with the UTC
wall time of `tmin + i*I` (`I` the effective interval), and when `I > 0`
those lead times are strictly ascending in `i`. -/
theorem C6_bucket_times (env : Env) (m : MapReduceJob) (r : Row)
    (hnr : m.stmt.aggregateCalls ≠ [])
    (hr : (jobExecute env m).rows = [r]) (he : r.err = none) :
    (∀ i (hi : i < r.values.length),
      (r.values.get ⟨i, hi⟩).head? =
        some (Value.time (m.tmin + (i : Int) * effectiveInterval m))) ∧
    (0 < effectiveInterval m →
      ∀ i j (hi : i < r.values.length) (hj : j < r.values.length), i < j →
        ∃ ti tj,
          (r.values.get ⟨i, hi⟩).head? = some (Value.time ti) ∧
          (r.values.get ⟨j, hj⟩).head? = some (Value.time tj) ∧ ti < tj) := by
  obtain ⟨rfs, vals, evs, hini, hagg, hpc, hrow⟩ :=
    nonRaw_success_shape env m r hnr hr he
  have hval : r.values = vals := by rw [hrow]
  subst hval
  have hf2 := aggLoop_ok_forall2 _ _ _ _ _ _ hagg
  obtain ⟨hlen, hget⟩ := List.forall₂_iff_get.mp hf2
  have key : ∀ i (hi : i < r.values.length),
      (r.values.get ⟨i, hi⟩).head? =
        some (Value.time (m.tmin + (i : Int) * effectiveInterval m)) := by
    intro i hi
    have hi1 : i < (initialValues m).length := by rw [hlen]; exact hi
    obtain ⟨ext, hext, _⟩ := hget i hi1 hi
    have hinit : (initialValues m).get ⟨i, hi1⟩ =
        [Value.time (m.tmin + (i : Int) * effectiveInterval m)] := by
      simp [initialValues]
    rw [hext, hinit]
    rfl
  refine ⟨key, fun hpos i j hi hj hij => ?_⟩
  refine ⟨_, _, key i hi, key j hj, ?_⟩
  have hcast : (i : Int) < (j : Int) := by exact_mod_cast hij
  have := mul_lt_mul_of_pos_right hcast hpos
  linarith

/-- C6 (witness): the bucket-time theorem at the two-bucket `sum` job. -/
theorem C6_bucket_times_witness :
    (∀ i (hi : i < testRow.values.length),
      (testRow.values.get ⟨i, hi⟩).head? =
        some (Value.time (testJob.tmin + (i : Int) * effectiveInterval testJob))) ∧
    (0 < effectiveInterval testJob →
      ∀ i j (hi : i < testRow.values.length) (hj : j < testRow.values.length),
        i < j →
        ∃ ti tj,
          (testRow.values.get ⟨i, hi⟩).head? = some (Value.time ti) ∧
          (testRow.values.get ⟨j, hj⟩).head? = some (Value.time tj) ∧ ti < tj) :=
  C6_bucket_times testEnv testJob testRow (by decide) rfl rfl

end Engine

namespace Engine

/-- C3 (amended): neither `Plan` nor the executor sorts jobs — `Plan`
imprints the interval and statement onto the jobs exactly in the order the
transaction returned them, and the emission loop emits each job's rows in
that order before closing the channel.  Rows are therefore in ascending
`TagSet.Key` order precisely when the transaction already returned the jobs
in that order. -/
theorem C3_amended_emission_in_job_order (env : Env) (stmt : SelectStatement)
    (pin : PlanInputs) (iv : Int) (tags : List String)
    (jobs : List MapReduceJob) (e : Executor)
    (hb : pin.beginTx = .ok ())
    (hn : pin.normalize = .ok (iv, tags))
    (hc : pin.createJobs tags = .ok jobs)
    (hp : plan stmt pin = .ok e)
    (hnp : ∀ j ∈ e.jobs, (jobExecute env j).panicked = none) :
    e.jobs = jobs.map (fun j => { j with interval := iv, stmt := stmt }) ∧
    Executor.run env e =
      ((e.jobs.flatMap fun j => (jobExecute env j).rows), true, none) := by
  unfold plan at hp
  rw [hb] at hp
  dsimp only at hp
  rw [hn] at hp
  dsimp only at hp
  rw [hc] at hp
  dsimp only at hp
  cases hp
  exact ⟨rfl, emissionLoop_no_panic env _ hnp⟩

/-- C3 (witness): the amended statement at a one-job plan. -/
theorem C3_amended_emission_in_job_order_witness :
    singleExecutor.jobs =
      [testJob].map (fun j => { j with interval := 10, stmt := testStmt }) ∧
    Executor.run testEnv singleExecutor =
      ((singleExecutor.jobs.flatMap fun j => (jobExecute testEnv j).rows),
        true, none) :=
  C3_amended_emission_in_job_order testEnv testStmt singlePlanInputs 10 ["host"]
    [testJob] singleExecutor rfl rfl rfl rfl
    (by intro j hj; simp only [singleExecutor, List.mem_singleton] at hj; subst hj; rfl)

/-- C3 (counterexample): with the transaction returning jobs out of tag-set
key order, `Plan` + `Execute` emit the key-`[98]` job's row before the
key-`[97]` job's row, so rows are not in ascending `TagSet.Key` order. -/
theorem C3_cex_unsorted_emission :
    plan testStmt unsortedPlanInputs = .ok unsortedExecutor ∧
    (Executor.run testEnv unsortedExecutor).1.map Row.tags =
      [[("t", "b")], [("t", "a")]] ∧
    bytesCompare jobKeyA.tagSet.key jobKeyB.tagSet.key = -1 :=
  ⟨rfl, rfl, rfl⟩

/-- C8: a job in the middle of the executor's list whose `Execute` emits an
error row does not stop the loop: the rows of every later job still appear
on the channel after it, and the channel is closed after the last job (all
under the proviso that no job panics). -/
theorem C8_failure_isolation (env : Env) (pre post : List MapReduceJob)
    (jerr : MapReduceJob) (r : Row) (e : Error)
    (hjr : (jobExecute env jerr).rows = [r]) (hre : r.err = some e)
    (hnp : ∀ j ∈ pre ++ jerr :: post, (jobExecute env j).panicked = none) :
    emissionLoop env (pre ++ jerr :: post) =
      ((pre.flatMap fun j => (jobExecute env j).rows) ++
        r :: (post.flatMap fun j => (jobExecute env j).rows), true, none) := by
  rw [emissionLoop_no_panic env _ hnp]
  simp only [List.flatMap_append, List.flatMap_cons, hjr, List.singleton_append]

/-- C8 (witness): a failing job between two healthy ones still lets both
emit, and the channel closes. -/
theorem C8_failure_isolation_witness :
    emissionLoop testEnv ([testJob] ++ badJob :: [testJob]) =
      (([testJob].flatMap fun j => (jobExecute testEnv j).rows) ++
        { name := "", tags := [], columns := [], values := [],
          err := some "boom" } ::
          ([testJob].flatMap fun j => (jobExecute testEnv j).rows),
        true, none) :=
  C8_failure_isolation testEnv [testJob] [testJob] badJob
    { name := "", tags := [], columns := [], values := [], err := some "boom" }
    "boom" rfl rfl
    (by intro j hj; fin_cases hj <;> rfl)

/-- C9 (amended): a raw query whose select names lack `"time"` gets it
prepended to the columns of whatever row `processRawResults` returns; and in
the single-value case each raw record `(ts, payload)` whose payload is not
the nil interface becomes the value row `[utc(ts), payload]`, in
mapper-emission order (a nil payload panics the `v.values.(interface{})`
assertion instead of producing a row). -/
theorem C9_raw_single_value (m : MapReduceJob)
    (hTime : m.stmt.namesInSelect.contains "time" = false) :
    (∀ resultValues r, processRawResults m resultValues = .ok r →
      r.columns = "time" :: m.stmt.namesInSelect) ∧
    (m.stmt.namesInSelect.length = 1 →
      ∀ tp recs rest, (∀ rec ∈ recs, rec.2 ≠ Value.null) →
        processRawResults m ([tp, Value.rawBatch recs] :: rest) =
          .ok { name := m.measurementName, tags := m.tagSet.tags,
                columns := "time" :: m.stmt.namesInSelect,
                values := recs.map fun rec => [Value.time rec.1, rec.2] }) := by
  constructor
  · intro resultValues r h
    unfold processRawResults at h
    dsimp only at h
    simp only [hTime, Bool.false_eq_true, if_false] at h
    cases resultValues with
    | nil => exact Except.noConfusion h
    | cons first rest =>
      dsimp only at h
      by_cases h2 : first.length ≠ 2
      · rw [if_pos h2] at h
        injection h with h
        subst h
        rfl
      · rw [if_neg h2] at h
        cases hfst : first[1]? with
        | none =>
          rw [hfst] at h
          exact Except.noConfusion h
        | some v1 =>
          rw [hfst] at h
          cases v1 with
          | rawBatch recs =>
            dsimp only at h
            cases hraw : rawRows ("time" :: m.stmt.namesInSelect)
                (("time" :: m.stmt.namesInSelect).length == 2) recs with
            | error p =>
              rw [hraw] at h
              exact Except.noConfusion h
            | ok vs =>
              rw [hraw] at h
              injection h with h
              subst h
              rfl
          | time ns => exact Except.noConfusion h
          | int n => exact Except.noConfusion h
          | str s => exact Except.noConfusion h
          | null => exact Except.noConfusion h
          | fieldMap fields => exact Except.noConfusion h
  · intro hLen tp recs rest hnn
    have hsv : (("time" :: m.stmt.namesInSelect).length == 2) = true := by
      simp [hLen]
    unfold processRawResults
    dsimp only
    simp only [hTime, Bool.false_eq_true, if_false, hsv, List.length_cons,
      List.length_nil, ne_eq, List.getElem?_cons_succ, List.getElem?_cons_zero]
    simp only [hLen, not_true, if_false]
    have h12 : (1 + 1 == 2) = true := rfl
    rw [h12, rawRows_single _ _ hnn]

/-- C9 (witness): the spec's raw single-value scenario — select `["v"]`,
payload `[(5, "a"), (9, "b")]` — yields columns `["time", "v"]` and values
`[[utc(5), "a"], [utc(9), "b"]]`. -/
theorem C9_raw_single_value_witness :
    processRawResults rawJob
        [[Value.time 1, Value.rawBatch [(5, Value.str "a"), (9, Value.str "b")]]] =
      .ok { name := "cpu", tags := [], columns := ["time", "v"],
            values := [[Value.time 5, Value.str "a"],
                       [Value.time 9, Value.str "b"]] } :=
  (C9_raw_single_value rawJob rfl).2 rfl (Value.time 1)
    [(5, Value.str "a"), (9, Value.str "b")] []
    (by intro rec hrec; fin_cases hrec <;> exact fun h => Value.noConfusion h)

/-- C9 (counterexample): a raw record whose payload is the nil interface
does not produce the value row the claim promises — the single-value
assertion `v.values.(interface{})` panics and `processRawResults` returns no
row at all. -/
theorem C9_cex_nil_payload :
    processRawResults rawJob [[Value.time 1, Value.rawBatch [(5, Value.null)]]] =
      .error GoPanic.typeAssertion :=
  rfl

end Engine
